import Mathlib

/-!
Verification of the encoding-pipeline core of the
`Information-Restrited-NLMs` repository.

Embedded source files:
* `src/irnlm/encoding_pipeline/regression_pipeline.py` (class `Pipeline`)
* `src/irnlm/encoding_pipeline/data_transformation.py` (class `Transformer`)
* `src/irnlm/encoding_pipeline/utils.py` (`fetch_offsets`, `fetch_duration`)

The `Task` class (`task.py`) and the `Logger` object are used by
`regression_pipeline.py` but are not part of the provided sources; their
behaviour is modelled from the specification (section 4.1 and section 7):
`is_waiting` is true iff some parent is not terminated, `execute` gathers
the parents' outputs in registration order, and a fatal configuration
error reported through `logger.error` aborts the run.

Conventions of the embedding:
* Tasks are identified by elements of `Fin n`; a `TaskGraph` carries the
  `children` and `parents` adjacency lists, bidirectionally consistent
  (maintained by `Task.add_input_dependencies`).
* Python's work list `queue` is a list that is popped with `queue.pop()`
  (i.e. from its BACK) while items are prepended to its front
  (`queue = [task] + queue`, `queue = task.children + queue`).  The Lean
  `queue` stores the same sequence in POP ORDER, i.e. it is the reverse
  of the Python list: `pop()` is taking the head, prepending a task to
  the Python list is appending it here, and prepending the `children`
  list is appending `children.reverse` here.
* The Python `while queue:` loop is written with an explicit fuel
  argument so that the model stays executable; `fitFuel` is proved to be
  always sufficient (`fitLoop_no_fuelOut`), so the `.error .fuelOut`
  branch is unreachable and the model is an exact image of the loop.
* Numeric data is modelled over `ℚ`; a `NaN` cell of a feature matrix is
  modelled as `none`.
-/

namespace IRNLM

/-- A task graph: `children`/`parents` adjacency lists over task ids
`Fin n`.  The `consistent` field reflects that `add_input_dependencies`
always registers both directions of a dependency (spec section 4.1). -/
structure TaskGraph (n : ℕ) where
  children : Fin n → List (Fin n)
  parents : Fin n → List (Fin n)
  consistent : ∀ p c : Fin n, p ∈ parents c ↔ c ∈ children p

/-- Modelled from the spec: `Task.is_waiting()` is true iff at least one
parent is not yet terminated (`task.py` is not among the sources).
`term` is the set of currently terminated tasks. -/
def isWaiting {n : ℕ} (g : TaskGraph n) (t : Fin n) (term : Finset (Fin n)) : Prop :=
  ∃ p ∈ g.parents t, p ∉ term

instance {n : ℕ} (g : TaskGraph n) (t : Fin n) (term : Finset (Fin n)) :
    Decidable (isWaiting g t term) :=
  List.decidableBEx _ _

/-- Outcome of `Pipeline.fit`'s loop.  `loopDetected` is the fatal
configuration error `logger.error("Loop detected... Please check tasks
dependencies.")`, which aborts the run (spec section 7).  `fuelOut` is a
model artifact that provably never occurs for the fuel used by `fit`. -/
inductive FitError where
  | loopDetected
  | fuelOut
deriving DecidableEq

/-- Log lines emitted by `Pipeline.fit`. -/
inductive FitLog where
  /-- `logger.error("Loop detected... Please check tasks dependencies.")` -/
  | errorLoop
  /-- `logger.info("The pipeline was fitted without error.")` -/
  | infoFitted
deriving DecidableEq

/-- The body of `Pipeline.fit`'s `while queue:` loop
(`regression_pipeline.py`, lines 58-70).  The queue is kept in pop
order (see the module docstring): Python's `queue.pop()` is the head
here, Python's `queue = [task] + queue` is `queue ++ [task]`, and
Python's `queue = task.children + queue` is
`queue ++ task.children.reverse`. -/
def fitLoop {n : ℕ} (g : TaskGraph n) :
    ℕ → List (Fin n) → Finset (Fin n) → ℕ → List (Fin n) →
    Except FitError (List (Fin n))
  | _, [], _, _, order => .ok order
  | 0, _ :: _, _, _, _ => .error .fuelOut
  | fuel + 1, t :: queue, term, count, order =>
    if t ∉ term ∧ isWaiting g t term then
      if count = 0 then .error .loopDetected
      else fitLoop g fuel (queue ++ [t]) term (count - 1) order
    else if t ∉ term then
      fitLoop g fuel (queue ++ (g.children t).reverse) (insert t term)
        (count + (g.children t).length) (order ++ [t])
    else
      fitLoop g fuel queue term count order

/-- Total number of child links of the graph. -/
def totalChildren {n : ℕ} (g : TaskGraph n) : ℕ :=
  Finset.univ.sum fun t => (g.children t).length

/-- Strictly decreasing measure of a `fitLoop` state; bounds the number
of remaining loop iterations. -/
def fitBound {n : ℕ} (g : TaskGraph n) (queue : List (Fin n))
    (term : Finset (Fin n)) (count : ℕ) : ℕ :=
  count + queue.length + (n - term.card) * (1 + 2 * totalChildren g)

/-- Fuel used by `Pipeline.fit`: the measure of the initial state. -/
def fitFuel {n : ℕ} (g : TaskGraph n) : ℕ :=
  2 + n * (1 + 2 * totalChildren g)

/-- `Pipeline.fit(task, logger)` (`regression_pipeline.py`, lines
49-72): starts from `self.tasks = []`, `queue = [task]`, `count = 1`,
runs the work-list loop, and logs
`"The pipeline was fitted without error."` when the loop finishes.
The fatal `logger.error` abort is modelled by the `.error` result. -/
def Pipeline.fit {n : ℕ} (g : TaskGraph n) (root : Fin n) :
    List FitLog × Except FitError (List (Fin n)) :=
  match fitLoop g (fitFuel g) [root] ∅ 1 [] with
  | .error .loopDetected => ([.errorLoop], .error .loopDetected)
  | .error .fuelOut => ([], .error .fuelOut)
  | .ok order => ([.infoFitted], .ok order)

/-- Python errors surfaced by `Pipeline.compute`. -/
inductive PyErr where
  /-- `self.tasks` does not exist: `fit` was never called. -/
  | attributeError
  /-- `return task.output` with the loop variable `task` never bound. -/
  | unboundLocal
deriving DecidableEq

/-- Log lines emitted by `Pipeline.compute`. -/
inductive ComputeLog (n : ℕ) where
  /-- `logger.warning("Pipeline not fitted... Nothing to compute.")` -/
  | warnNotFitted
  /-- `logger.info("{}. Executing task: {}")` -/
  | infoExecuting (t : Fin n)
  /-- `logger.info("The pipeline was executed without error.")` -/
  | infoExecutedOk
deriving DecidableEq

/-- Modelled from the spec: `Task.execute()` gathers the outputs of all
parents in registration order as the operation's input and stores the
operation's result as the task's output.  `Pipeline.compute` registers a
synthetic terminated task whose output is the initial payload as an
extra (last) parent of the first fitted task, which is what the
`if t = first` summand models. -/
def taskInputs {n : ℕ} {α : Type} (g : TaskGraph n) (st : Fin n → Option α)
    (first : Fin n) (init : α) (t : Fin n) : List (Option α) :=
  (g.parents t).map st ++ (if t = first then [some init] else [])

/-- The `for index, task in enumerate(self.tasks): task.execute()` loop:
threads the store of task outputs through the fitted order. -/
def runAll {n : ℕ} {α : Type} (g : TaskGraph n)
    (ops : Fin n → List (Option α) → α) (first : Fin n) (init : α) :
    List (Fin n) → (Fin n → Option α) → (Fin n → Option α)
  | [], st => st
  | t :: rest, st =>
      runAll g ops first init rest
        (Function.update st t (some (ops t (taskInputs g st first init t))))

/-- The task-output store after `Pipeline.compute`'s execution loop. -/
def finalStates {n : ℕ} {α : Type} (g : TaskGraph n)
    (ops : Fin n → List (Option α) → α) (ord : List (Fin n)) (init : α) :
    Fin n → Option α :=
  match ord with
  | [] => fun _ => none
  | t0 :: rest => runAll g ops t0 init (t0 :: rest) (fun _ => none)

/-- `Pipeline.compute(X_train, Y_train, output_path, logger)`
(`regression_pipeline.py`, lines 74-101).  `fitted = none` models a
`Pipeline` on which `fit` was never called: `if not self.tasks:` then
raises `AttributeError` before anything is logged.  With an empty fitted
order the code logs the warning, still logs
`"The pipeline was executed without error."`, and then crashes at
`return task.output` because the loop variable `task` was never bound.
Otherwise every fitted task is executed in order and the output of the
last one is returned. -/
def Pipeline.compute {n : ℕ} {α : Type} (g : TaskGraph n)
    (ops : Fin n → List (Option α) → α) (fitted : Option (List (Fin n)))
    (init : α) : List (ComputeLog n) × Except PyErr α :=
  match fitted with
  | none => ([], .error .attributeError)
  | some [] => ([.warnNotFitted, .infoExecutedOk], .error .unboundLocal)
  | some (t0 :: rest) =>
      ((t0 :: rest).map ComputeLog.infoExecuting ++ [.infoExecutedOk],
        match finalStates g ops (t0 :: rest) init ((t0 :: rest).getLast (List.cons_ne_nil t0 rest)) with
        | some v => .ok v
        | none => .error .unboundLocal)

/-- One child link of the task graph. -/
def ChildStep {n : ℕ} (g : TaskGraph n) (a b : Fin n) : Prop :=
  b ∈ g.children a

instance {n : ℕ} (g : TaskGraph n) (a b : Fin n) : Decidable (ChildStep g a b) :=
  inferInstanceAs (Decidable (b ∈ g.children a))

/-- Reachability from `root` along child links (reflexive-transitive). -/
inductive Reaches {n : ℕ} (g : TaskGraph n) (root : Fin n) : Fin n → Prop
  | refl : Reaches g root root
  | step {t c : Fin n} : Reaches g root t → c ∈ g.children t → Reaches g root c

/-- The dependency relation has no cycle. -/
def Acyclic {n : ℕ} (g : TaskGraph n) : Prop :=
  ∀ t : Fin n, ¬ Relation.TransGen (ChildStep g) t t

/-- The fitted order respects dependencies: every listed task comes
strictly after each of its parents. -/
def OrderParents {n : ℕ} (g : TaskGraph n) (ord : List (Fin n)) : Prop :=
  ∀ b ∈ ord, ∀ a ∈ g.parents b, a ∈ ord ∧ ord.indexOf a < ord.indexOf b

/-! ## Transformer (`data_transformation.py`) and `utils.py`

The scaling functions `standardize`, `identity` and `normalize` all have
the shape `matrices = [*X_train, *X_test]`, an elementwise per-matrix
transformation of `matrices`, and the split
`{'X_train': matrices[:-len(X_test)], 'X_test': matrices[-len(X_test):]}`.
Matrices are kept abstract (a type `α`); the per-matrix transformation
performed by the external `sklearn.StandardScaler` (fitted on a single
matrix and applied to that same matrix) and the per-matrix norm scaling
`M / np.mean(la.norm(M, ord, axis))` are abstract functions `α → α`. -/

/-! ### Scheduler lemmas -/

lemma children_length_le_totalChildren {n : ℕ} (g : TaskGraph n) (t : Fin n) :
    (g.children t).length ≤ totalChildren g := by
  unfold totalChildren
  exact @Finset.single_le_sum (Fin n) ℕ _ (fun s => (g.children s).length)
    Finset.univ (fun _ _ => Nat.zero_le _) t (Finset.mem_univ t)

lemma term_card_lt {n : ℕ} {term : Finset (Fin n)} {t : Fin n} (h : t ∉ term) :
    term.card < n := by
  have hne : term ≠ Finset.univ := fun he => h (he ▸ Finset.mem_univ t)
  have := Finset.card_lt_card (Finset.ssubset_univ_iff.mpr hne)
  simpa using this

lemma fitBound_requeue {n : ℕ} (g : TaskGraph n) (queue : List (Fin n))
    (term : Finset (Fin n)) (count : ℕ) (t : Fin n) (hc : count ≠ 0) :
    fitBound g (queue ++ [t]) term (count - 1) + 1
      ≤ fitBound g (t :: queue) term count := by
  simp only [fitBound, List.length_append, List.length_cons, List.length_nil]
  omega

lemma fitBound_process {n : ℕ} (g : TaskGraph n) (queue : List (Fin n))
    (term : Finset (Fin n)) (count : ℕ) (t : Fin n) (h : t ∉ term) :
    fitBound g (queue ++ (g.children t).reverse) (insert t term)
      (count + (g.children t).length) + 1 ≤ fitBound g (t :: queue) term count := by
  have hcard : (insert t term).card = term.card + 1 := Finset.card_insert_of_not_mem h
  have hlt : term.card < n := term_card_lt h
  have hchild := children_length_le_totalChildren g t
  simp only [fitBound, hcard, List.length_append, List.length_cons, List.length_reverse,
    List.length_nil]
  have hsub : n - term.card = (n - (term.card + 1)) + 1 := by omega
  rw [hsub, Nat.add_mul, one_mul]
  omega

lemma fitBound_drop {n : ℕ} (g : TaskGraph n) (queue : List (Fin n))
    (term : Finset (Fin n)) (count : ℕ) (t : Fin n) :
    fitBound g queue term count + 1 ≤ fitBound g (t :: queue) term count := by
  simp only [fitBound, List.length_cons]
  omega

/-- The fuel argument is an artifact: with at least `fitBound` fuel the
loop never runs out. -/
lemma fitLoop_no_fuelOut {n : ℕ} (g : TaskGraph n) :
    ∀ (fuel : ℕ) (queue : List (Fin n)) (term : Finset (Fin n)) (count : ℕ)
      (order : List (Fin n)), fitBound g queue term count ≤ fuel →
      fitLoop g fuel queue term count order ≠ .error .fuelOut := by
  intro fuel
  induction fuel with
  | zero =>
      intro queue term count order hb
      cases queue with
      | nil => simp [fitLoop]
      | cons t rest =>
          exfalso
          simp only [fitBound, List.length_cons] at hb
          omega
  | succ f ih =>
      intro queue term count order hb
      cases queue with
      | nil => simp [fitLoop]
      | cons t rest =>
          simp only [fitLoop]
          split_ifs with h1 h2 h3
          · simp
          · exact ih _ _ _ _
              (by have := fitBound_requeue g rest term count t h2; omega)
          · exact ih _ _ _ _
              (by have := fitBound_drop g rest term count t; omega)
          · exact ih _ _ _ _
              (by have := fitBound_process g rest term count t h3; omega)

/-- With sufficient fuel the result does not depend on the fuel. -/
lemma fitLoop_fuel_irrel {n : ℕ} (g : TaskGraph n) :
    ∀ (fuel fuel' : ℕ) (queue : List (Fin n)) (term : Finset (Fin n)) (count : ℕ)
      (order : List (Fin n)), fitBound g queue term count ≤ fuel → fuel ≤ fuel' →
      fitLoop g fuel queue term count order = fitLoop g fuel' queue term count order := by
  intro fuel
  induction fuel with
  | zero =>
      intro fuel' queue term count order hb _
      cases queue with
      | nil => cases fuel' <;> simp [fitLoop]
      | cons t rest =>
          exfalso
          simp only [fitBound, List.length_cons] at hb
          omega
  | succ f ih =>
      intro fuel' queue term count order hb hle
      cases queue with
      | nil => cases fuel' <;> simp [fitLoop]
      | cons t rest =>
          cases fuel' with
          | zero => omega
          | succ f' =>
              simp only [fitLoop]
              split_ifs with h1 h2 h3
              · rfl
              · exact ih f' _ _ _ _
                  (by have := fitBound_requeue g rest term count t h2; omega)
                  (by omega)
              · exact ih f' _ _ _ _
                  (by have := fitBound_drop g rest term count t; omega)
                  (by omega)
              · exact ih f' _ _ _ _
                  (by have := fitBound_process g rest term count t h3; omega)
                  (by omega)

lemma reaches_of_transGen {n : ℕ} (g : TaskGraph n) {root a b : Fin n}
    (ha : Reaches g root a) (h : Relation.TransGen (ChildStep g) a b) :
    Reaches g root b := by
  induction h with
  | single h => exact Reaches.step ha h
  | tail _ h ih => exact Reaches.step ih h

lemma reaches_mem_of_closed {n : ℕ} (g : TaskGraph n) {root : Fin n}
    {ord : List (Fin n)} (hroot : root ∈ ord)
    (hclosed : ∀ t ∈ ord, ∀ c ∈ g.children t, c ∈ ord) :
    ∀ x, Reaches g root x → x ∈ ord := by
  intro x hx
  induction hx with
  | refl => exact hroot
  | step _ hc ih => exact hclosed _ ih _ hc

lemma orderParents_append {n : ℕ} (g : TaskGraph n) {ord : List (Fin n)}
    {t : Fin n} (hOP : OrderParents g ord) (ht : t ∉ ord)
    (hps : ∀ a ∈ g.parents t, a ∈ ord) : OrderParents g (ord ++ [t]) := by
  intro b hb a ha
  rcases List.mem_append.mp hb with hb | hb
  · obtain ⟨hao, hlt⟩ := hOP b hb a ha
    refine ⟨List.mem_append_left _ hao, ?_⟩
    rw [List.indexOf_append_of_mem hao, List.indexOf_append_of_mem hb]
    exact hlt
  · rw [List.mem_singleton] at hb
    subst hb
    have hao : a ∈ ord := hps a ha
    refine ⟨List.mem_append_left _ hao, ?_⟩
    rw [List.indexOf_append_of_mem hao, List.indexOf_append_of_not_mem ht,
      List.indexOf_cons_self]
    have := List.indexOf_lt_length.mpr hao
    omega

/-- Main invariant of `fit`'s loop: if the loop drains its queue
without an error then the collected order is duplicate-free, respects
the parent relation, absorbs the queue and the partial order, is closed
under children, and contains only reachable tasks. -/
lemma fitLoop_ok_invariant {n : ℕ} (g : TaskGraph n) (root : Fin n) :
    ∀ (fuel : ℕ) (queue : List (Fin n)) (term : Finset (Fin n)) (count : ℕ)
      (order final : List (Fin n)),
      fitLoop g fuel queue term count order = .ok final →
      (∀ x, x ∈ term ↔ x ∈ order) →
      order.Nodup →
      OrderParents g order →
      (∀ t ∈ term, ∀ c ∈ g.children t, c ∈ term ∨ c ∈ queue) →
      (∀ x ∈ queue, Reaches g root x) →
      (∀ x ∈ order, Reaches g root x) →
      final.Nodup ∧ OrderParents g final ∧
        (∀ x ∈ queue, x ∈ final) ∧ (∀ x ∈ order, x ∈ final) ∧
        (∀ t ∈ final, ∀ c ∈ g.children t, c ∈ final) ∧
        (∀ x ∈ final, Reaches g root x) := by
  intro fuel
  induction fuel with
  | zero =>
      intro queue term count order final h hI1 hI2 hI3 hI4 hQ hO
      cases queue with
      | nil =>
          simp only [fitLoop, Except.ok.injEq] at h
          subst h
          refine ⟨hI2, hI3, by simp, fun x hx => hx, ?_, hO⟩
          intro t ht c hc
          rcases hI4 t ((hI1 t).mpr ht) c hc with h' | h'
          · exact (hI1 c).mp h'
          · cases h'
      | cons t rest => simp [fitLoop] at h
  | succ f ih =>
      intro queue term count order final h hI1 hI2 hI3 hI4 hQ hO
      cases queue with
      | nil =>
          simp only [fitLoop, Except.ok.injEq] at h
          subst h
          refine ⟨hI2, hI3, by simp, fun x hx => hx, ?_, hO⟩
          intro t ht c hc
          rcases hI4 t ((hI1 t).mpr ht) c hc with h' | h'
          · exact (hI1 c).mp h'
          · cases h'
      | cons t rest =>
          simp only [fitLoop] at h
          by_cases h1 : t ∉ term ∧ isWaiting g t term
          case pos =>
            rw [if_pos h1] at h
            by_cases h2 : count = 0
            case pos => rw [if_pos h2] at h; simp at h
            case neg =>
            rw [if_neg h2] at h
            -- requeue: the waiting task is moved to the back of the pop order
            have hres := ih (rest ++ [t]) term (count - 1) order final h hI1 hI2 hI3
              (fun s hs c hc => by
                rcases hI4 s hs c hc with h' | h'
                · exact Or.inl h'
                · rcases List.mem_cons.mp h' with rfl | h''
                  · exact Or.inr (List.mem_append_right _ (List.mem_singleton_self c))
                  · exact Or.inr (List.mem_append_left _ h''))
              (fun x hx => by
                rcases List.mem_append.mp hx with hx | hx
                · exact hQ x (List.mem_cons_of_mem _ hx)
                · rw [List.mem_singleton] at hx; subst hx
                  exact hQ _ (List.mem_cons_self _ _))
              hO
            obtain ⟨c1, c2, c3, c4, c5, c6⟩ := hres
            refine ⟨c1, c2, ?_, c4, c5, c6⟩
            intro x hx
            rcases List.mem_cons.mp hx with rfl | hx
            · exact c3 x (List.mem_append_right _ (List.mem_singleton_self x))
            · exact c3 x (List.mem_append_left _ hx)
          case neg =>
          rw [if_neg h1] at h
          by_cases h3 : t ∉ term
          case neg =>
            rw [if_neg h3] at h
            rw [not_not] at h3
            -- drop: already terminated
            have hres := ih rest term count order final h hI1 hI2 hI3
              (fun s hs c hc => by
                rcases hI4 s hs c hc with h' | h'
                · exact Or.inl h'
                · rcases List.mem_cons.mp h' with rfl | h''
                  · exact Or.inl h3
                  · exact Or.inr h'')
              (fun x hx => hQ x (List.mem_cons_of_mem _ hx))
              hO
            obtain ⟨c1, c2, c3, c4, c5, c6⟩ := hres
            refine ⟨c1, c2, ?_, c4, c5, c6⟩
            intro x hx
            rcases List.mem_cons.mp hx with rfl | hx
            · exact c4 x ((hI1 x).mp h3)
            · exact c3 x hx
          case pos =>
            rw [if_pos h3] at h
            -- process: append to the order, enqueue the children
            have hnt : t ∉ term := h3
            have hnw : ¬ isWaiting g t term := fun hw => h1 ⟨h3, hw⟩
            have hparents : ∀ a ∈ g.parents t, a ∈ term := by
              intro a ha
              by_contra hcon
              exact hnw ⟨a, ha, hcon⟩
            have hto : t ∉ order := fun h' => hnt ((hI1 t).mpr h')
            have hres := ih (rest ++ (g.children t).reverse) (insert t term)
              (count + (g.children t).length) (order ++ [t]) final h
              (fun x => by
                simp only [Finset.mem_insert, List.mem_append, List.mem_singleton, hI1 x]
                tauto)
              (hI2.append (List.nodup_singleton t)
                (fun a ha hb => by rw [List.mem_singleton] at hb; subst hb; exact hto ha))
              (orderParents_append g hI3 hto
                (fun a ha => (hI1 a).mp (hparents a ha)))
              (fun s hs c hc => by
                rcases Finset.mem_insert.mp hs with rfl | hs
                · exact Or.inr (List.mem_append_right _ (by simpa using hc))
                · rcases hI4 s hs c hc with h' | h'
                  · exact Or.inl (Finset.mem_insert_of_mem h')
                  · rcases List.mem_cons.mp h' with rfl | h''
                    · exact Or.inl (Finset.mem_insert_self _ _)
                    · exact Or.inr (List.mem_append_left _ h''))
              (fun x hx => by
                rcases List.mem_append.mp hx with hx | hx
                · exact hQ x (List.mem_cons_of_mem _ hx)
                · exact Reaches.step (hQ t (List.mem_cons_self _ _))
                    (List.mem_reverse.mp hx))
              (fun x hx => by
                rcases List.mem_append.mp hx with hx | hx
                · exact hO x hx
                · rw [List.mem_singleton] at hx; subst hx
                  exact hQ x (List.mem_cons_self _ _))
            obtain ⟨c1, c2, c3, c4, c5, c6⟩ := hres
            refine ⟨c1, c2, ?_, ?_, c5, c6⟩
            · intro x hx
              rcases List.mem_cons.mp hx with rfl | hx
              · exact c4 x (List.mem_append_right _ (List.mem_singleton_self x))
              · exact c3 x (List.mem_append_left _ hx)
            · intro x hx
              exact c4 x (List.mem_append_left _ hx)

/-- Properties of a successful `fit`: the fitted order is exactly the
set of tasks reachable from the root, without duplicates, and each task
comes strictly after all of its parents. -/
lemma fit_ok_props {n : ℕ} (g : TaskGraph n) {root : Fin n}
    {ord : List (Fin n)} (h : (Pipeline.fit g root).2 = .ok ord) :
    ord.Nodup ∧ OrderParents g ord ∧ root ∈ ord ∧
      (∀ x, Reaches g root x ↔ x ∈ ord) := by
  unfold Pipeline.fit at h
  rcases hfl : fitLoop g (fitFuel g) [root] ∅ 1 [] with e | ord'
  · rw [hfl] at h; cases e <;> simp at h
  · rw [hfl] at h
    simp only [Except.ok.injEq] at h
    subst h
    have hres := fitLoop_ok_invariant g root (fitFuel g) [root] ∅ 1 [] ord' hfl
      (by simp) List.nodup_nil
      (by intro b hb; cases hb)
      (by intro s hs; cases hs)
      (by intro x hx
          rw [List.mem_singleton] at hx
          subst hx
          exact Reaches.refl)
      (by intro x hx; cases hx)
    obtain ⟨c1, c2, c3, c4, c5, c6⟩ := hres
    have hroot : root ∈ ord' := c3 root (List.mem_singleton_self root)
    exact ⟨c1, c2, hroot, fun x =>
      ⟨fun hr => reaches_mem_of_closed g hroot c5 x hr, fun hm => c6 x hm⟩⟩

/-- Along any (transitively reachable) chain of child links the fitted
order is strictly increasing. -/
lemma transGen_indexOf_lt {n : ℕ} (g : TaskGraph n) {root : Fin n}
    {ord : List (Fin n)} (hOP : OrderParents g ord)
    (hmem : ∀ x, Reaches g root x ↔ x ∈ ord) {a b : Fin n}
    (hab : Relation.TransGen (ChildStep g) a b) (ha : Reaches g root a) :
    ord.indexOf a < ord.indexOf b := by
  induction hab with
  | single h =>
      have hb : Reaches g root _ := Reaches.step ha h
      exact (hOP _ ((hmem _).mp hb) a ((g.consistent a _).mpr h)).2
  | tail hac h ih =>
      have hc : Reaches g root _ := reaches_of_transGen g ha hac
      have hb : Reaches g root _ := Reaches.step hc h
      exact lt_trans ih (hOP _ ((hmem _).mp hb) _ ((g.consistent _ _).mpr h)).2

/-- A cycle reachable from the root forces `fit` to abort with the
`"Loop detected"` error. -/
lemma fit_error_of_reachable_cycle {n : ℕ} (g : TaskGraph n) {root t u : Fin n}
    (ht : Reaches g root t) (htu : Relation.TransGen (ChildStep g) t u)
    (hut : Relation.TransGen (ChildStep g) u t) :
    (Pipeline.fit g root).2 = .error .loopDetected := by
  have hinit : fitBound g [root] (∅ : Finset (Fin n)) 1 ≤ fitFuel g := by
    simp [fitBound, fitFuel]
  rcases hfl : fitLoop g (fitFuel g) [root] ∅ 1 [] with e | ord
  · cases e
    · unfold Pipeline.fit
      rw [hfl]
    · exact absurd hfl (fitLoop_no_fuelOut g (fitFuel g) [root] ∅ 1 [] hinit)
  · exfalso
    have hok : (Pipeline.fit g root).2 = .ok ord := by
      unfold Pipeline.fit
      rw [hfl]
    obtain ⟨c1, c2, c3, c4⟩ := fit_ok_props g hok
    have h1 := transGen_indexOf_lt g c2 c4 htu ht
    have h2 := transGen_indexOf_lt g c2 c4 hut (reaches_of_transGen g ht htu)
    omega

/-- Sufficiency of a rank function for acyclicity (used to certify
concrete acyclic graphs). -/
lemma acyclic_of_rank {n : ℕ} (g : TaskGraph n) (rank : Fin n → ℕ)
    (h : ∀ a b : Fin n, ChildStep g a b → rank a < rank b) : Acyclic g := by
  intro t ht
  have haux : ∀ a b : Fin n, Relation.TransGen (ChildStep g) a b → rank a < rank b := by
    intro a b hab
    induction hab with
    | single h1 => exact h _ _ h1
    | tail _ h1 ih => exact lt_trans ih (h _ _ h1)
  exact lt_irrefl _ (haux t t ht)

/-- The output of the last executed task is stored in the final state
(`task.output` of the last loop variable). -/
lemma runAll_getLast {n : ℕ} {α : Type} (g : TaskGraph n)
    (ops : Fin n → List (Option α) → α) (first : Fin n) (init : α) :
    ∀ (l : List (Fin n)) (st : Fin n → Option α) (h : l ≠ []),
      ∃ v, runAll g ops first init l st (l.getLast h) = some v := by
  intro l
  induction l with
  | nil => intro st h; exact absurd rfl h
  | cons t rest ih =>
      intro st h
      cases rest with
      | nil =>
          refine ⟨ops t (taskInputs g st first init t), ?_⟩
          simp [runAll, List.getLast]
      | cons t2 rest2 =>
          have h2 : t2 :: rest2 ≠ [] := List.cons_ne_nil _ _
          have := ih (Function.update st t
            (some (ops t (taskInputs g st first init t)))) h2
          simpa [runAll, List.getLast_cons h2] using this

/-! ### Concrete task-graph fixtures -/

/-- Acyclic 7-task fixture: root `0` with children `[1, 3, 4, 5, 6]`, a
chain `1 → 2`, and `2`'s children `[3, 4, 5, 6]`; every task is
reachable from `0` and every parent of a reachable task is reachable. -/
def g7 : TaskGraph 7 where
  children := ![[1, 3, 4, 5, 6], [2], [3, 4, 5, 6], [], [], [], []]
  parents := ![[], [0], [1], [0, 2], [0, 2], [0, 2], [0, 2]]
  consistent := by decide

/-- Two independent subtrees: root `0` with children `[1, 2]`,
`1 → 3`, `2 → 4`. -/
def g5 : TaskGraph 5 where
  children := ![[1, 2], [3], [4], [], []]
  parents := ![[], [0], [0], [1], [2]]
  consistent := by decide

/-- A 2-cycle `1 ⇄ 2` that is unreachable from the root `0`. -/
def g3iso : TaskGraph 3 where
  children := ![[], [2], [1]]
  parents := ![[], [2], [1]]
  consistent := by decide

/-- Root `0` feeding the 2-cycle `1 ⇄ 2`. -/
def g3cyc : TaskGraph 3 where
  children := ![[1], [2], [1]]
  parents := ![[], [0, 2], [1]]
  consistent := by decide

/-! ### Scheduler claims -/

/-- C1 (amended): when all tasks start non-terminated and `fit`
completes without reporting the cycle error, the fitted order collects
every task reachable from the root via child links exactly once — and
nothing else — with each task placed strictly after all of its parents,
and a subsequent `compute` executes exactly the tasks of that order, in
that order, and returns the stored output of the last task of the
order.  (The original claim quantified over all acyclic graphs; the
counterexample `C1_cex_acyclic_but_fit_errors` shows the retry budget
can be exhausted on an acyclic graph, in which case `fit` aborts and
produces no order, so success of `fit` is the required hypothesis.) -/
theorem C1_fit_compute_correct {n : ℕ} {α : Type} (g : TaskGraph n) (root : Fin n)
    (ord : List (Fin n)) (ops : Fin n → List (Option α) → α) (init : α)
    (hfit : (Pipeline.fit g root).2 = .ok ord) :
    ord.Nodup ∧ (∀ x, Reaches g root x ↔ x ∈ ord) ∧ OrderParents g ord ∧
    (Pipeline.compute g ops (some ord) init).1
        = ord.map ComputeLog.infoExecuting ++ [ComputeLog.infoExecutedOk] ∧
    ∃ lastT v, ord.getLast? = some lastT ∧
      (Pipeline.compute g ops (some ord) init).2 = .ok v ∧
      finalStates g ops ord init lastT = some v := by
  obtain ⟨c1, c2, c3, c4⟩ := fit_ok_props g hfit
  have hne : ord ≠ [] := by rintro rfl; cases c3
  refine ⟨c1, c4, c2, ?_, ?_⟩
  · cases ord with
    | nil => exact absurd rfl hne
    | cons t0 rest => rfl
  · cases ord with
    | nil => exact absurd rfl hne
    | cons t0 rest =>
        obtain ⟨v, hv⟩ := runAll_getLast g ops t0 init (t0 :: rest)
          (fun _ => none) (List.cons_ne_nil t0 rest)
        refine ⟨(t0 :: rest).getLast (List.cons_ne_nil t0 rest), v, ?_, ?_, ?_⟩
        · exact List.getLast?_eq_getLast _ _
        · have heq : (Pipeline.compute g ops (some (t0 :: rest)) init).2
              = match finalStates g ops (t0 :: rest) init
                    ((t0 :: rest).getLast (List.cons_ne_nil t0 rest)) with
                | some w => Except.ok w
                | none => Except.error PyErr.unboundLocal := rfl
          rw [heq]
          simp only [finalStates]
          rw [hv]
        · exact hv

/-- C1 witness: on `g5`, `fit` succeeds with order `[0, 2, 1, 4, 3]`,
and the amended properties hold for it. -/
theorem C1_fit_compute_correct_witness :
    (Pipeline.fit g5 0).2 = .ok [0, 2, 1, 4, 3] ∧
    (([0, 2, 1, 4, 3] : List (Fin 5)).Nodup ∧
      (∀ x, Reaches g5 0 x ↔ x ∈ ([0, 2, 1, 4, 3] : List (Fin 5))) ∧
      OrderParents g5 [0, 2, 1, 4, 3] ∧
      (Pipeline.compute g5 (fun _ _ => (0 : ℕ)) (some [0, 2, 1, 4, 3]) 0).1
          = ([0, 2, 1, 4, 3] : List (Fin 5)).map ComputeLog.infoExecuting
            ++ [ComputeLog.infoExecutedOk] ∧
      ∃ lastT v, ([0, 2, 1, 4, 3] : List (Fin 5)).getLast? = some lastT ∧
        (Pipeline.compute g5 (fun _ _ => (0 : ℕ)) (some [0, 2, 1, 4, 3]) 0).2 = .ok v ∧
        finalStates g5 (fun _ _ => (0 : ℕ)) [0, 2, 1, 4, 3] 0 lastT = some v) :=
  ⟨by rfl, C1_fit_compute_correct g5 0 [0, 2, 1, 4, 3] (fun _ _ => (0 : ℕ)) 0 (by rfl)⟩

/-- C1 counterexample: `g7` is acyclic (certified by a rank function)
and all of its 7 tasks are reachable from the root, yet `fit` exhausts
the retry budget on a waiting task and aborts with the cycle error, so
no fitted order is produced at all. -/
theorem C1_cex_acyclic_but_fit_errors :
    Acyclic g7 ∧ (∀ x : Fin 7, Reaches g7 0 x) ∧
    (Pipeline.fit g7 0).2 = .error .loopDetected := by
  have h0 : Reaches g7 0 0 := Reaches.refl
  have h1 : Reaches g7 0 1 := Reaches.step h0 (by decide)
  have h2 : Reaches g7 0 2 := Reaches.step h1 (by decide)
  have h3 : Reaches g7 0 3 := Reaches.step h0 (by decide)
  have h4 : Reaches g7 0 4 := Reaches.step h0 (by decide)
  have h5 : Reaches g7 0 5 := Reaches.step h0 (by decide)
  have h6 : Reaches g7 0 6 := Reaches.step h0 (by decide)
  refine ⟨acyclic_of_rank g7 ![0, 1, 2, 3, 3, 3, 3] (by decide), ?_, by rfl⟩
  intro x
  fin_cases x
  · exact h0
  · exact h1
  · exact h2
  · exact h3
  · exact h4
  · exact h5
  · exact h6

/-- C2: a non-terminated, waiting task popped with an exhausted budget
makes `fit` report the fatal "Loop detected" configuration error and
abort the pass — the success line is then not logged; with a non-zero
budget the waiting task is requeued at the front of the Python work
list (`[task] + queue`, the back of the pop order) and the budget is
decremented by one. -/
theorem C2_budget_exhaustion_aborts {n : ℕ} (g : TaskGraph n) (root t : Fin n)
    (queue : List (Fin n)) (term : Finset (Fin n)) (count fuel : ℕ)
    (order : List (Fin n)) (hterm : t ∉ term) (hwait : isWaiting g t term) :
    (count = 0 → fitLoop g (fuel + 1) (t :: queue) term count order
        = .error .loopDetected) ∧
    (count ≠ 0 → fitLoop g (fuel + 1) (t :: queue) term count order
        = fitLoop g fuel (queue ++ [t]) term (count - 1) order) ∧
    ((Pipeline.fit g root).2 = .error .loopDetected →
      FitLog.errorLoop ∈ (Pipeline.fit g root).1 ∧
        FitLog.infoFitted ∉ (Pipeline.fit g root).1) := by
  refine ⟨?_, ?_, ?_⟩
  · intro hc
    simp [fitLoop, hterm, hwait, hc]
  · intro hc
    simp [fitLoop, hterm, hwait, hc]
  · intro hres
    have hsplit : Pipeline.fit g root = ([FitLog.errorLoop], .error .loopDetected) := by
      unfold Pipeline.fit at hres ⊢
      rcases hfl : fitLoop g (fitFuel g) [root] ∅ 1 [] with e | o
      · rw [hfl] at hres
        cases e
        · rfl
        · simp at hres
      · rw [hfl] at hres
        simp at hres
    rw [hsplit]
    exact ⟨List.mem_singleton_self _, by simp⟩

/-- C2 witness: on `g3cyc` with task `1` waiting and the budget at
zero, one loop step aborts with the cycle error. -/
theorem C2_budget_exhaustion_aborts_witness :
    ((1 : Fin 3) ∉ (∅ : Finset (Fin 3)) ∧ isWaiting g3cyc 1 ∅) ∧
    fitLoop g3cyc (0 + 1) [(1 : Fin 3)] ∅ 0 [] = .error .loopDetected :=
  ⟨⟨by decide, by decide⟩,
    (C2_budget_exhaustion_aborts g3cyc 0 1 [] ∅ 0 0 [] (by decide) (by decide)).1 rfl⟩

/-- C3 (code bug): `compute` on an unfit pipeline raises
`AttributeError` before anything is logged, and `compute` after a `fit`
that produced an empty order logs the warning, still logs "The pipeline
was executed without error.", and then raises `UnboundLocalError` at
`return task.output` — it is not a graceful no-op returning no
result. -/
theorem C3_compute_unfit_crashes {n : ℕ} {α : Type} (g : TaskGraph n)
    (ops : Fin n → List (Option α) → α) (init : α) :
    Pipeline.compute g ops none init = ([], .error .attributeError) ∧
    Pipeline.compute g ops (some []) init
      = ([ComputeLog.warnNotFitted, ComputeLog.infoExecutedOk],
          .error .unboundLocal) :=
  ⟨rfl, rfl⟩

/-- C4 (amended): for every graph with a true dependency cycle among at
least two tasks that is reachable from the root, `fit` terminates — the
work-list loop needs at most `fitFuel` iterations and giving it any
more fuel does not change the outcome — and reports the cycle error.
(The original claim quantified over all graphs containing a cycle; the
counterexample `C4_cex_unreachable_cycle` exhibits one concrete graph
whose only cycle is unreachable from the root and on which `fit`
finishes with no error, so the restriction to reachable cycles is
forced.  Whether `fit` errors on a graph whose cycles are all
unreachable depends on the reachable part alone — the retry budget can
still be exhausted there — so no general statement is made about that
case.) -/
theorem C4_reachable_cycle_detected {n : ℕ} (g : TaskGraph n) (root t u : Fin n)
    (hne : t ≠ u) (ht : Reaches g root t)
    (htu : Relation.TransGen (ChildStep g) t u)
    (hut : Relation.TransGen (ChildStep g) u t) :
    (Pipeline.fit g root).2 = .error .loopDetected ∧
    ∀ fuel, fitFuel g ≤ fuel →
      fitLoop g fuel [root] ∅ 1 [] = .error .loopDetected := by
  have hmain := fit_error_of_reachable_cycle g ht htu hut
  refine ⟨hmain, ?_⟩
  intro fuel hf
  have hb : fitBound g [root] (∅ : Finset (Fin n)) 1 ≤ fitFuel g := by
    simp [fitBound, fitFuel]
  have hirr := fitLoop_fuel_irrel g (fitFuel g) fuel [root] ∅ 1 [] hb hf
  unfold Pipeline.fit at hmain
  rcases hfl : fitLoop g (fitFuel g) [root] ∅ 1 [] with e | o
  · rw [hfl] at hmain hirr
    cases e
    · exact hirr.symm
    · simp at hmain
  · rw [hfl] at hmain
    simp at hmain

/-- C4 witness: on `g3cyc` (root feeding the 2-cycle `1 ⇄ 2`), `fit`
reports the cycle error. -/
theorem C4_reachable_cycle_detected_witness :
    ((1 : Fin 3) ≠ 2 ∧ Reaches g3cyc 0 1 ∧
      Relation.TransGen (ChildStep g3cyc) 1 2 ∧
      Relation.TransGen (ChildStep g3cyc) 2 1) ∧
    (Pipeline.fit g3cyc 0).2 = .error .loopDetected :=
  ⟨⟨by decide, Reaches.step Reaches.refl (by decide),
      Relation.TransGen.single (by decide), Relation.TransGen.single (by decide)⟩,
    (C4_reachable_cycle_detected g3cyc 0 1 2 (by decide)
      (Reaches.step Reaches.refl (by decide))
      (Relation.TransGen.single (by decide))
      (Relation.TransGen.single (by decide))).1⟩

/-- C4 counterexample: `g3iso` contains the true 2-cycle `1 ⇄ 2`, but
the cycle is unreachable from the root `0`; `fit` finishes without any
cycle error, returns the order `[0]` and logs the success line. -/
theorem C4_cex_unreachable_cycle :
    Relation.TransGen (ChildStep g3iso) 1 2 ∧
    Relation.TransGen (ChildStep g3iso) 2 1 ∧ (1 : Fin 3) ≠ 2 ∧
    Pipeline.fit g3iso 0 = ([FitLog.infoFitted], .ok [0]) :=
  ⟨Relation.TransGen.single (by decide), Relation.TransGen.single (by decide),
    by decide, by rfl⟩

/-- C9 (amended): a popped non-terminated, non-waiting task is appended
to the fitted order and its children are prepended to the front of the
Python work list — but since `queue.pop()` pops from the BACK, the new
children are popped only after every task already queued: the traversal
is breadth-first (FIFO), with each sibling batch visited in reversed
list order and the earliest-discovered eligible task ordered first.
(In this embedding the queue is kept in pop order, so prepending the
children to the Python list is `queue ++ children.reverse`.) -/
theorem C9_children_front_is_fifo {n : ℕ} (g : TaskGraph n) (t : Fin n)
    (queue : List (Fin n)) (term : Finset (Fin n)) (count fuel : ℕ)
    (order : List (Fin n)) (hterm : t ∉ term) (hnw : ¬ isWaiting g t term) :
    fitLoop g (fuel + 1) (t :: queue) term count order
      = fitLoop g fuel (queue ++ (g.children t).reverse) (insert t term)
          (count + (g.children t).length) (order ++ [t]) := by
  simp [fitLoop, hterm, hnw]

/-- C9 witness: the first step of `fit` on `g5` appends the root to the
order and schedules its children behind the whole remaining queue. -/
theorem C9_children_front_is_fifo_witness :
    ((0 : Fin 5) ∉ (∅ : Finset (Fin 5)) ∧ ¬ isWaiting g5 0 ∅) ∧
    fitLoop g5 (3 + 1) [(0 : Fin 5)] ∅ 1 []
      = fitLoop g5 3 ([] ++ (g5.children 0).reverse) (insert 0 ∅)
          (1 + (g5.children 0).length) ([] ++ [0]) :=
  ⟨⟨by decide, by decide⟩,
    C9_children_front_is_fifo g5 0 [] ∅ 1 3 [] (by decide) (by decide)⟩

/-- C9 counterexample: on `g5` the fitted order is `[0, 2, 1, 4, 3]` —
level order (breadth-first, siblings reversed), not a depth-first
order (`[0, 1, 3, 2, 4]` or `[0, 2, 4, 1, 3]`); and task `4`,
discovered when `2` was processed, i.e. before `3` was discovered, is
appended to the order before `3` — the earliest-discovered eligible
task wins, not the most recently discovered one. -/
theorem C9_cex_not_depth_first :
    (Pipeline.fit g5 0).2 = .ok [0, 2, 1, 4, 3] ∧
    ([0, 2, 1, 4, 3] : List (Fin 5)).indexOf 4
        < ([0, 2, 1, 4, 3] : List (Fin 5)).indexOf 3 ∧
    ([0, 2, 1, 4, 3] : List (Fin 5)) ≠ [0, 1, 3, 2, 4] ∧
    ([0, 2, 1, 4, 3] : List (Fin 5)) ≠ [0, 2, 4, 1, 3] :=
  ⟨by rfl, by decide, by decide, by decide⟩

/-- Python's `lst[:-m]`: for `m = 0` this is `lst[:0] = []`. -/
def pySliceTrain {α : Type} (l : List α) (m : ℕ) : List α :=
  if m = 0 then [] else l.take (l.length - m)

/-- Python's `lst[-m:]`: for `m = 0` this is `lst[0:] = lst`. -/
def pySliceTest {α : Type} (l : List α) (m : ℕ) : List α :=
  if m = 0 then l else l.drop (l.length - m)

/-- The `{'X_train': ..., 'X_test': ...}` result of a scaling function. -/
structure ScaleResult (α : Type) where
  X_train : List α
  X_test : List α
deriving DecidableEq

/-- The flattened `matrices` list of a scaling result. -/
def flatOut {α : Type} (r : ScaleResult α) : List α :=
  r.X_train ++ r.X_test

/-- `Transformer.standardize` (`data_transformation.py`, lines 129-143):
each matrix of the flattened train+test list is fitted and transformed
by its own fresh `StandardScaler`; `sc` is that per-matrix function. -/
def Transformer.standardize {α : Type} (sc : α → α)
    (X_train X_test : List α) : ScaleResult α :=
  let matrices := (X_train ++ X_test).map sc
  ⟨pySliceTrain matrices X_test.length, pySliceTest matrices X_test.length⟩

/-- `Transformer.identity` (`data_transformation.py`, lines 145-160):
with `centering` each matrix is mean-centered by its own fresh
`StandardScaler(with_mean=True, with_std=False)` (the function
`scCenter`); without `centering` the matrices are left untouched. -/
def Transformer.identity {α : Type} (scCenter : α → α)
    (X_train X_test : List α) (centering : Bool) : ScaleResult α :=
  let matrices :=
    if centering then (X_train ++ X_test).map scCenter else X_train ++ X_test
  ⟨pySliceTrain matrices X_test.length, pySliceTest matrices X_test.length⟩

/-- `Transformer.normalize` (`data_transformation.py`, lines 162-180):
each matrix is optionally centered (`StandardScaler(with_mean=centering,
with_std=False)` is the identity transformation when `centering` is
false) and then divided by the mean of its own norms; `normDiv` is that
per-matrix division `M / np.mean(la.norm(M, ord, axis))`. -/
def Transformer.normalize {α : Type} (scCenter normDiv : α → α)
    (X_train X_test : List α) (centering : Bool) : ScaleResult α :=
  let matrices :=
    (X_train ++ X_test).map fun M => normDiv (if centering then scCenter M else M)
  ⟨pySliceTrain matrices X_test.length, pySliceTest matrices X_test.length⟩

/-- A feature slice handed to `compute_regressor`, row-major; a `none`
cell is a `NaN`. -/
abbrev DataFrame := List (List (Option ℚ))

/-- A regressor matrix, column-major (list of per-scan signal columns). -/
abbrev ColMatrix := List (List ℚ)

/-- `dataframe.dropna(axis=0)`: drop every row containing a `NaN`. -/
def dropna (df : DataFrame) : List (List ℚ) :=
  df.filterMap fun row =>
    if row.all Option.isSome then some row.reduceOption else none

/-- Column `j` of a (NaN-free) row-major dataframe. -/
def dfColumn (rows : List (List ℚ)) (j : ℕ) : List ℚ :=
  rows.map fun r => r.getD j 0

/-- The path built by `utils.fetch_offsets`:
`os.path.join(offset_path, language, f'{offset_type}_run{run_index[-1]}.csv')`. -/
def offsetPathOf (offset_type run_index offset_path language : String) : String :=
  offset_path ++ "/" ++ language ++ "/" ++ offset_type ++ "_run"
    ++ run_index.takeRight 1 ++ ".csv"

/-- The path built by `utils.fetch_duration`:
`os.path.join(duration_path, 'durations', f'{duration_type}_run{run_index[-1]}.csv')`. -/
def durationPathOf (duration_type run_index duration_path : String) : String :=
  duration_path ++ "/durations/" ++ duration_type ++ "_run"
    ++ run_index.takeRight 1 ++ ".csv"

/-- `utils.fetch_offsets` (`utils.py`, lines 248-263).  The file system
is a map from paths to the numeric column a CSV file holds; a missing
file raises `Exception("Please specify an offset file at: {path}")`. -/
def fetch_offsets (fs : String → Option (List ℚ))
    (offset_type run_index offset_path language : String) :
    Except String (List ℚ) :=
  let path := offsetPathOf offset_type run_index offset_path language
  match fs path with
  | none => .error ("Please specify an offset file at: " ++ path)
  | some v => .ok v

/-- `utils.fetch_duration` (`utils.py`, lines 265-281): a missing file
is not an error and yields `np.ones(default_size)`. -/
def fetch_duration (fs : String → Option (List ℚ))
    (duration_type run_index duration_path : String) (default_size : ℕ) :
    List ℚ :=
  match fs (durationPathOf duration_type run_index duration_path) with
  | none => List.replicate default_size 1
  | some v => v

/-- Number of samples of `np.arange(0.0, stop, step)` for `0 < step`
(idealised over `ℚ`). -/
def arangeLen (stop step : ℚ) : ℕ :=
  if 0 < step then (Int.ceil (stop / step)).toNat else 0

/-- `np.arange(0.0, nscans * tr, tr)`: the acquisition frame times. -/
def frame_times (nscans : ℕ) (tr : ℚ) : List ℚ :=
  (List.range (arangeLen ((nscans : ℚ) * tr) tr)).map fun (i : ℕ) => (i : ℚ) * tr

/-- Argument block of one call to the external
`nistats.hemodynamic_models.compute_regressor` (the HRF kernel service,
spec section 6): the three rows of `np.vstack((offsets, duration,
dataframe[col]))` plus kernel name, frame times and oversampling. -/
structure HrfArgs where
  onsets : List ℚ
  durations : List ℚ
  amplitudes : List ℚ
  hrf : String
  frame_times : List ℚ
  oversampling : ℕ

/-- The HRF kernel service: returns the convolved signal columns
(column-major, sampled at the frame times) and their names.  Treated as
an opaque pure function (spec section 6). -/
abbrev HrfService := HrfArgs → ColMatrix × List String

/-- Configuration of a `Transformer` (constructor arguments relevant to
the regressor-construction stage).  `nscans` and the two type
dictionaries are keyed by run name (`"run1"`, ...); the per-run lists of
the type dictionaries are read as functions of the model index. -/
structure TransformerCfg where
  tr : ℚ
  nscans : String → ℕ
  temporal_shifting : ℚ
  hrf : String
  oversampling : ℕ
  offset_path : String
  duration_path : String
  language : String
  indexes : List (List ℕ)
  offset_type_dict : String → ℕ → String
  duration_type_dict : String → ℕ → String

/-- Exception-propagating list comprehension (`[f(x) for x in l]` where
`f` may raise). -/
def mapExcept {β γ ε : Type} (f : β → Except ε γ) : List β → Except ε (List γ)
  | [] => .ok []
  | x :: xs => do
      let y ← f x
      let ys ← mapExcept f xs
      .ok (y :: ys)

/-- One iteration of `compute_regressor`'s `for col in representations:`
loop: `np.vstack((offsets, duration, dataframe[col]))` requires the
three rows to have equal length, then the HRF kernel service is invoked
on the condition array at the run's frame times. -/
def columnRegressor (svc : HrfService) (cfg : TransformerCfg)
    (rows : List (List ℚ)) (offsets duration : List ℚ)
    (run_index : String) (j : ℕ) : Except String ColMatrix :=
  if offsets.length = duration.length ∧ duration.length = (dfColumn rows j).length then
    .ok (svc ⟨offsets, duration, dfColumn rows j, cfg.hrf,
      frame_times (cfg.nscans run_index) cfg.tr, cfg.oversampling⟩).1
  else
    .error "np.vstack: all the input array dimensions must match"

/-- `Transformer.compute_regressor` (`data_transformation.py`, lines
202-227): drop NaN rows, fetch offsets (fatal if missing) and durations
(defaulting to ones sized by the retained row count), shift the offsets,
and convolve every column with the HRF kernel at the run's frame times.
`pd.concat` of zero regressors raises and is surfaced as `.error`. -/
def Transformer.compute_regressor (cfg : TransformerCfg) (svc : HrfService)
    (fs : String → Option (List ℚ)) (df : DataFrame) (ncols : ℕ)
    (offset_type duration_type run_index : String) :
    Except String ColMatrix := do
  let rows := dropna df
  let offsets0 ← fetch_offsets fs offset_type run_index cfg.offset_path cfg.language
  let duration := fetch_duration fs duration_type run_index cfg.duration_path rows.length
  let offsets := offsets0.map fun x => x + cfg.temporal_shifting
  let regressors ← mapExcept
    (columnRegressor svc cfg rows offsets duration run_index) (List.range ncols)
  if ncols = 0 then
    .error "pd.concat: no objects to concatenate"
  else
    .ok regressors.flatten

/-! ### Slicing and list-comprehension lemmas -/

lemma pySlice_append_eq {α : Type} (l : List α) (m : ℕ) :
    pySliceTrain l m ++ pySliceTest l m = l := by
  unfold pySliceTrain pySliceTest
  by_cases hm : m = 0
  · simp [hm]
  · rw [if_neg hm, if_neg hm, List.take_append_drop]

lemma pySliceTrain_of_append {α : Type} (a b : List α) (hb : b.length ≠ 0) :
    pySliceTrain (a ++ b) b.length = a := by
  unfold pySliceTrain
  rw [if_neg hb]
  have hlen : (a ++ b).length - b.length = a.length := by
    rw [List.length_append]; omega
  rw [hlen, List.take_left]

lemma pySliceTest_of_append {α : Type} (a b : List α) (hb : b.length ≠ 0) :
    pySliceTest (a ++ b) b.length = b := by
  unfold pySliceTest
  rw [if_neg hb]
  have hlen : (a ++ b).length - b.length = a.length := by
    rw [List.length_append]; omega
  rw [hlen, List.drop_left]

lemma pySliceTrain_zero {α : Type} (l : List α) : pySliceTrain l 0 = [] := rfl

lemma pySliceTest_zero {α : Type} (l : List α) : pySliceTest l 0 = l := rfl

lemma mapExcept_ok_length {β γ ε : Type} (f : β → Except ε γ) :
    ∀ (l : List β) (out : List γ), mapExcept f l = .ok out → out.length = l.length := by
  intro l
  induction l with
  | nil => intro out h; simp [mapExcept] at h; subst h; rfl
  | cons x xs ih =>
      intro out h
      simp only [mapExcept, bind, Except.bind] at h
      cases hfx : f x with
      | error e => rw [hfx] at h; cases h
      | ok y =>
          rw [hfx] at h
          cases hxs : mapExcept f xs with
          | error e => rw [hxs] at h; cases h
          | ok ys =>
              rw [hxs] at h
              simp only [Except.ok.injEq] at h
              subst h
              simp [ih ys hxs]

lemma mapExcept_ok_mem {β γ ε : Type} (f : β → Except ε γ) :
    ∀ (l : List β) (out : List γ), mapExcept f l = .ok out →
      ∀ y ∈ out, ∃ x ∈ l, f x = .ok y := by
  intro l
  induction l with
  | nil =>
      intro out h
      simp [mapExcept] at h
      subst h
      intro y hy
      cases hy
  | cons x xs ih =>
      intro out h
      simp only [mapExcept, bind, Except.bind] at h
      cases hfx : f x with
      | error e => rw [hfx] at h; cases h
      | ok y =>
          rw [hfx] at h
          cases hxs : mapExcept f xs with
          | error e => rw [hxs] at h; cases h
          | ok ys =>
              rw [hxs] at h
              simp only [Except.ok.injEq] at h
              subst h
              intro z hz
              rcases List.mem_cons.mp hz with rfl | hz
              · exact ⟨x, List.mem_cons_self _ _, hfx⟩
              · obtain ⟨x', hx', hfx'⟩ := ih ys hxs z hz
                exact ⟨x', List.mem_cons_of_mem _ hx', hfx'⟩

lemma arangeLen_nat_mul {N : ℕ} {tr : ℚ} (htr : 0 < tr) :
    arangeLen ((N : ℚ) * tr) tr = N := by
  unfold arangeLen
  rw [if_pos htr, mul_div_assoc, div_self (ne_of_gt htr), mul_one]
  simp

lemma frame_times_length {N : ℕ} {tr : ℚ} (htr : 0 < tr) :
    (frame_times N tr).length = N := by
  simp only [frame_times, List.length_map, List.length_range]
  exact arangeLen_nat_mul htr

/-- `array[:, index]`: the column slice of one model's block. -/
def sliceCols (df : DataFrame) (idxs : List ℕ) : DataFrame :=
  df.map fun row => idxs.map fun j => row.getD j none

/-- `'run{}'.format(run + 1)`. -/
def runKey (run : ℕ) : String :=
  "run" ++ toString (run + 1)

/-- `[lst[x : x + step] for x in range(0, len(lst), step)]`, written with
a fuel argument (the list length) so it stays structural. -/
def chunkGo {α : Type} : ℕ → ℕ → List α → List (List α)
  | 0, _, _ => []
  | _, _, [] => []
  | fuel + 1, step, l => l.take step :: chunkGo fuel step (l.drop step)

/-- Result record of `Transformer.make_regressor`. -/
structure RegressorResult where
  X_train : List ColMatrix
  X_test : List ColMatrix
  run_train : List ℕ
  run_test : List ℕ

/-- `np.hstack` on column-major matrices. -/
def hstack (ms : List ColMatrix) : ColMatrix :=
  ms.flatten

/-- The flat list of `(array_index, array, i, index)` tuples ranged over
by `make_regressor`'s list comprehension. -/
def regressorPairs (cfg : TransformerCfg) (matricesIn : List DataFrame) :
    List (ℕ × DataFrame × ℕ × List ℕ) :=
  matricesIn.enum.flatMap fun p =>
    cfg.indexes.enum.map fun q => (p.1, p.2, q.1, q.2)

/-- One `self.compute_regressor(...)` call of the comprehension. -/
def regressorCall (cfg : TransformerCfg) (svc : HrfService)
    (fs : String → Option (List ℚ)) (runs : List ℕ)
    (p : ℕ × DataFrame × ℕ × List ℕ) : Except String ColMatrix :=
  Transformer.compute_regressor cfg svc fs (sliceCols p.2.1 p.2.2.2)
    p.2.2.2.length
    (cfg.offset_type_dict (runKey (runs.getD p.1 0)) p.2.2.1)
    (cfg.duration_type_dict (runKey (runs.getD p.1 0)) p.2.2.1)
    (runKey (runs.getD p.1 0))

/-- `Transformer.make_regressor` (`data_transformation.py`, lines
182-200): one `compute_regressor` call per (matrix, model) pair in a
flat list (`regressorPairs` / `regressorCall`), regrouped per matrix in
chunks of `len(self.indexes)` and horizontally concatenated, then split
by the same `[:-len(X_test)]` / `[-len(X_test):]` slicing as the
scaling functions.  `range(0, len, 0)` (no models) raises in Python and
is surfaced as an error. -/
def Transformer.make_regressor (cfg : TransformerCfg) (svc : HrfService)
    (fs : String → Option (List ℚ)) (X_train X_test : List DataFrame)
    (run_train run_test : List ℕ) : Except String RegressorResult := do
  let flat ← mapExcept (regressorCall cfg svc fs (run_train ++ run_test))
    (regressorPairs cfg (X_train ++ X_test))
  let step := cfg.indexes.length
  if step = 0 then
    .error "range() arg 3 must not be zero"
  else
    let matrices := (chunkGo flat.length step flat).map hstack
    .ok ⟨pySliceTrain matrices X_test.length, pySliceTest matrices X_test.length,
      run_train, run_test⟩

lemma regressorPairs_length (cfg : TransformerCfg) (matricesIn : List DataFrame) :
    (regressorPairs cfg matricesIn).length
      = matricesIn.length * cfg.indexes.length := by
  unfold regressorPairs
  have h : ∀ (l : List (ℕ × DataFrame)),
      (l.flatMap fun p => cfg.indexes.enum.map fun q => (p.1, p.2, q.1, q.2)).length
        = l.length * cfg.indexes.length := by
    intro l
    induction l with
    | nil => simp
    | cons p rest ih =>
        simp only [List.flatMap_cons, List.length_append, List.length_map,
          List.enum_length, ih, List.length_cons]
        rw [Nat.succ_mul]
        omega
  rw [h matricesIn.enum, List.enum_length]

lemma chunkGo_length {α : Type} (s : ℕ) (hs : s ≠ 0) :
    ∀ (fuel : ℕ) (l : List α) (m : ℕ), l.length = m * s → l.length ≤ fuel →
      (chunkGo fuel s l).length = m := by
  intro fuel
  induction fuel with
  | zero =>
      intro l m hm hle
      have hnil : l = [] := List.length_eq_zero.mp (by omega)
      subst hnil
      simp only [List.length_nil] at hm
      rcases Nat.mul_eq_zero.mp hm.symm with rfl | rfl
      · rfl
      · exact absurd rfl hs
  | succ f ih =>
      intro l m hm hle
      cases l with
      | nil =>
          simp only [List.length_nil] at hm
          rcases Nat.mul_eq_zero.mp hm.symm with rfl | rfl
          · rfl
          · exact absurd rfl hs
      | cons x xs =>
          have hmpos : m ≠ 0 := by
            rintro rfl
            simp at hm
          have hms : m * s = (m - 1) * s + s := by
            conv_lhs => rw [show m = (m - 1) + 1 by omega]
            rw [Nat.add_mul, one_mul]
          simp only [List.length_cons] at hm hle
          simp only [chunkGo, List.length_cons]
          have hdrop : ((x :: xs).drop s).length = (m - 1) * s := by
            rw [List.length_drop]
            simp only [List.length_cons]
            omega
          rw [ih ((x :: xs).drop s) (m - 1) hdrop
            (by rw [List.length_drop]; simp only [List.length_cons]; omega)]
          omega



/-! ### Remaining slicing lemmas and transformer fixtures -/

lemma pySliceTrain_length {α : Type} (l : List α) (m : ℕ) (hm : m ≠ 0)
    (hle : m ≤ l.length) : (pySliceTrain l m).length = l.length - m := by
  unfold pySliceTrain
  rw [if_neg hm, List.length_take]
  omega

lemma pySliceTest_length {α : Type} (l : List α) (m : ℕ) (hm : m ≠ 0)
    (hle : m ≤ l.length) : (pySliceTest l m).length = m := by
  unfold pySliceTest
  rw [if_neg hm, List.length_drop]
  omega

lemma scale_split_lengths {α : Type} (l : List α) (m a : ℕ) (hm : m ≠ 0)
    (hl : l.length = a + m) :
    (pySliceTrain l m).length = a ∧ (pySliceTest l m).length = m := by
  constructor
  · rw [pySliceTrain_length _ _ hm (by omega)]
    omega
  · exact pySliceTest_length _ _ hm (by omega)

lemma flatOut_standardize {α : Type} (sc : α → α) (a b : List α) :
    flatOut (Transformer.standardize sc a b) = (a ++ b).map sc := by
  simpa [Transformer.standardize, flatOut] using
    pySlice_append_eq ((a ++ b).map sc) b.length

lemma flatOut_identity {α : Type} (scC : α → α) (a b : List α) (c : Bool) :
    flatOut (Transformer.identity scC a b c)
      = if c then (a ++ b).map scC else a ++ b := by
  cases c
  · simpa [Transformer.identity, flatOut] using
      pySlice_append_eq (a ++ b) b.length
  · simpa [Transformer.identity, flatOut] using
      pySlice_append_eq ((a ++ b).map scC) b.length

lemma flatOut_normalize {α : Type} (scC nrm : α → α) (a b : List α) (c : Bool) :
    flatOut (Transformer.normalize scC nrm a b c)
      = (a ++ b).map fun M => nrm (if c then scC M else M) := by
  simpa [Transformer.normalize, flatOut] using
    pySlice_append_eq ((a ++ b).map fun M => nrm (if c then scC M else M)) b.length

/-- A minimal executable HRF kernel service for concrete fixtures: one
all-zero signal column sampled at the requested frame times. -/
def svc0 : HrfService := fun args =>
  ([args.frame_times.map fun _ => 0], ["hrf"])

/-- A small concrete `Transformer` configuration: `tr = 2`, 3 scans per
run, one model with the single column `0`. -/
def cfg0 : TransformerCfg where
  tr := 2
  nscans := fun _ => 3
  temporal_shifting := 0
  hrf := "spm"
  oversampling := 10
  offset_path := "o"
  duration_path := "d"
  language := "english"
  indexes := [[0]]
  offset_type_dict := fun _ _ => "word"
  duration_type_dict := fun _ _ => "word"

/-- File system holding a one-event offsets file for run 1 only. -/
def fsRun1 : String → Option (List ℚ) := fun p =>
  if p = "o/english/word_run1.csv" then some [0] else none

/-- File system holding one-event offsets files for runs 1 and 2. -/
def fsRuns12 : String → Option (List ℚ) := fun p =>
  if p = "o/english/word_run1.csv" ∨ p = "o/english/word_run2.csv" then
    some [0]
  else none

/-! ### Transformer claims -/

/-- C5 (amended): whenever `compute_regressor` returns a matrix, the
HRF kernel was sampled at the frame times `0, tr, 2·tr, …` up to (and
excluding) `nscans[run] · tr`, and the returned matrix has exactly
`nscans[run]` rows — every signal column has that length and there is
at least one column — independently of the number of event rows that
survive NaN removal.  The original claim fails for mismatched event
counts: with zero valid rows against a non-empty offsets file the
`np.vstack` call raises a shape error instead of returning a matrix
(counterexample `C5_cex_zero_rows_vstack_error`). -/
theorem C5_regressor_rows (cfg : TransformerCfg) (svc : HrfService)
    (fs : String → Option (List ℚ)) (df : DataFrame) (ncols : ℕ)
    (offset_type duration_type run_index : String) (m : ColMatrix)
    (hsvc : ∀ args : HrfArgs, ∀ col ∈ (svc args).1,
      col.length = args.frame_times.length)
    (hsvc1 : ∀ args : HrfArgs, (svc args).1 ≠ [])
    (htr : 0 < cfg.tr)
    (hok : Transformer.compute_regressor cfg svc fs df ncols
      offset_type duration_type run_index = .ok m) :
    frame_times (cfg.nscans run_index) cfg.tr
      = (List.range (cfg.nscans run_index)).map (fun (i : ℕ) => (i : ℚ) * cfg.tr) ∧
    m ≠ [] ∧ ∀ col ∈ m, col.length = cfg.nscans run_index := by
  refine ⟨by simp [frame_times, arangeLen_nat_mul htr], ?_⟩
  unfold Transformer.compute_regressor at hok
  simp only [bind, Except.bind] at hok
  cases hoff : fetch_offsets fs offset_type run_index cfg.offset_path cfg.language with
  | error e =>
      simp only [hoff] at hok
      cases hok
  | ok offsets0 =>
      simp only [hoff] at hok
      cases hmr : mapExcept (columnRegressor svc cfg (dropna df)
          (offsets0.map fun x => x + cfg.temporal_shifting)
          (fetch_duration fs duration_type run_index cfg.duration_path
            (dropna df).length) run_index) (List.range ncols) with
      | error e =>
          simp only [hmr] at hok
          cases hok
      | ok regs =>
          simp only [hmr] at hok
          by_cases hn : ncols = 0
          · simp [hn] at hok
          · rw [if_neg hn] at hok
            simp only [Except.ok.injEq] at hok
            subst hok
            have hlen := mapExcept_ok_length _ _ _ hmr
            rw [List.length_range] at hlen
            have hcols : ∀ y ∈ regs, y ≠ [] ∧
                ∀ col ∈ y, col.length = cfg.nscans run_index := by
              intro y hy
              obtain ⟨j, _, hjok⟩ := mapExcept_ok_mem _ _ _ hmr y hy
              unfold columnRegressor at hjok
              split_ifs at hjok with hcond
              simp only [Except.ok.injEq] at hjok
              subst hjok
              refine ⟨hsvc1 _, ?_⟩
              intro col hcol
              rw [hsvc _ col hcol]
              exact frame_times_length htr
            constructor
            · cases regs with
              | nil => exact absurd hlen.symm hn
              | cons y ys =>
                  have hy := (hcols y (List.mem_cons_self _ _)).1
                  intro hnil
                  rw [List.flatten_cons] at hnil
                  exact hy (List.append_eq_nil.mp hnil).1
            · intro col hcol
              rw [List.mem_flatten] at hcol
              obtain ⟨y, hy, hcy⟩ := hcol
              exact (hcols y hy).2 col hcy

/-- C5 witness: a single valid event row against the one-entry offsets
file of run 1 yields the 3-row zero matrix at `tr = 2`. -/
theorem C5_regressor_rows_witness :
    ((0 : ℚ) < cfg0.tr ∧
      Transformer.compute_regressor cfg0 svc0 fsRun1 [[some 1]] 1
        "word" "word" "run1" = .ok [[0, 0, 0]]) ∧
    ([[0, 0, 0]] : ColMatrix) ≠ [] ∧
    (∀ col ∈ ([[0, 0, 0]] : ColMatrix), col.length = cfg0.nscans "run1") := by
  refine ⟨⟨by norm_num [cfg0], by with_unfolding_all rfl⟩, ?_⟩
  have h := C5_regressor_rows cfg0 svc0 fsRun1 [[some 1]] 1 "word" "word" "run1"
    [[0, 0, 0]]
    (by
      intro args col hcol
      simp only [svc0, List.mem_singleton] at hcol
      subst hcol
      exact List.length_map _ _)
    (by intro args; simp [svc0])
    (by norm_num [cfg0])
    (by with_unfolding_all rfl)
  exact h.2

/-- C5 counterexample: one NaN event row (zero valid rows after NaN
removal) against the non-empty offsets file of run 1: the `np.vstack`
length check fails and `compute_regressor` raises instead of returning
an `nscans`-row matrix. -/
theorem C5_cex_zero_rows_vstack_error :
    Transformer.compute_regressor cfg0 svc0 fsRun1 [[none]] 1
        "word" "word" "run1"
      = .error "np.vstack: all the input array dimensions must match" := by
  with_unfolding_all rfl

/-- C6: a missing offsets file makes `fetch_offsets` raise an error
whose message names the expected file path, while a missing durations
file makes `fetch_duration` — called by `compute_regressor` with
`default_size = len(dataframe)` after NaN-row removal — return, without
raising, a vector of all ones whose length is the retained row count. -/
theorem C6_missing_files (fs : String → Option (List ℚ))
    (offset_type duration_type run_index offset_path duration_path language : String)
    (df : DataFrame)
    (hoff : fs (offsetPathOf offset_type run_index offset_path language) = none)
    (hdur : fs (durationPathOf duration_type run_index duration_path) = none) :
    fetch_offsets fs offset_type run_index offset_path language
      = .error ("Please specify an offset file at: "
          ++ offsetPathOf offset_type run_index offset_path language) ∧
    fetch_duration fs duration_type run_index duration_path (dropna df).length
      = List.replicate (dropna df).length 1 ∧
    (List.replicate (dropna df).length (1 : ℚ)).length = (dropna df).length := by
  refine ⟨?_, ?_, List.length_replicate _ _⟩
  · simp only [fetch_offsets, hoff]
  · simp only [fetch_duration, hdur]

/-- C6 witness: on an empty file system, with a dataframe of one valid
and one NaN row, `fetch_offsets` raises the named error and
`fetch_duration` returns `[1]` (one retained row). -/
theorem C6_missing_files_witness :
    ((fun _ : String => (none : Option (List ℚ)))
        (offsetPathOf "word" "run1" "o" "english") = none ∧
      (fun _ : String => (none : Option (List ℚ)))
        (durationPathOf "word" "run1" "d") = none) ∧
    fetch_offsets (fun _ => none) "word" "run1" "o" "english"
      = .error ("Please specify an offset file at: "
          ++ offsetPathOf "word" "run1" "o" "english") ∧
    fetch_duration (fun _ => none) "word" "run1" "d"
        (dropna [[some 1], [none]]).length
      = List.replicate (dropna [[some 1], [none]]).length 1 :=
  ⟨⟨rfl, rfl⟩,
    (C6_missing_files (fun _ => none) "word" "word" "run1" "o" "d" "english"
        [[some 1], [none]] rfl rfl).1,
    (C6_missing_files (fun _ => none) "word" "word" "run1" "o" "d" "english"
        [[some 1], [none]] rfl rfl).2.1⟩

/-- C7 (amended): with centering disabled and a non-empty `X_test`,
`identity` is a true identity: the returned `X_train` and `X_test`
equal the inputs bit for bit.  (With an empty `X_test` the
`[:-0]`/`[-0:]` split returns `X_train = []` and moves every matrix
into `X_test`; see the counterexample.) -/
theorem C7_identity_true_identity {α : Type} (sc : α → α)
    (X_train X_test : List α) (h : X_test ≠ []) :
    Transformer.identity sc X_train X_test false = ⟨X_train, X_test⟩ := by
  have hb : X_test.length ≠ 0 := fun h0 => h (List.length_eq_zero.mp h0)
  unfold Transformer.identity
  simp only [Bool.false_eq_true, if_false]
  rw [pySliceTrain_of_append _ _ hb, pySliceTest_of_append _ _ hb]

/-- C7 witness: `identity` on `X_train = [5]`, `X_test = [7]` with
centering disabled returns the inputs unchanged. -/
theorem C7_identity_true_identity_witness :
    ([7] : List ℕ) ≠ [] ∧
    Transformer.identity (fun x : ℕ => x) [5] [7] false = ⟨[5], [7]⟩ :=
  ⟨by decide, C7_identity_true_identity (fun x => x) [5] [7] (by decide)⟩

/-- C7 counterexample: with an empty `X_test` the claim fails even with
centering disabled: the lone train matrix is returned in `X_test` and
`X_train` comes back empty. -/
theorem C7_cex_empty_testlist :
    Transformer.identity (fun x : ℕ => x) [5] [] false = ⟨[], [5]⟩ ∧
    (⟨[], [5]⟩ : ScaleResult ℕ) ≠ ⟨[5], []⟩ :=
  ⟨rfl, by decide⟩

/-- C8: for `standardize`, `identity` and `normalize` the `k`-th entry
of the flattened transformed train+test list is a function of the
`k`-th input matrix alone: two calls whose flattened inputs agree at
`k` produce flattened outputs that agree at `k`, whatever every other
train or test matrix is — no mean, standard-deviation or norm statistic
is shared across splits or runs. -/
theorem C8_per_matrix_independence {α : Type} (sc scC nrm : α → α) (c : Bool)
    (a b a2 b2 : List α) (k : ℕ)
    (h : (a ++ b)[k]? = (a2 ++ b2)[k]?) :
    (flatOut (Transformer.standardize sc a b))[k]?
        = (flatOut (Transformer.standardize sc a2 b2))[k]? ∧
    (flatOut (Transformer.identity scC a b c))[k]?
        = (flatOut (Transformer.identity scC a2 b2 c))[k]? ∧
    (flatOut (Transformer.normalize scC nrm a b c))[k]?
        = (flatOut (Transformer.normalize scC nrm a2 b2 c))[k]? := by
  refine ⟨?_, ?_, ?_⟩
  · rw [flatOut_standardize, flatOut_standardize, List.getElem?_map,
      List.getElem?_map, h]
  · cases c
    · simpa [flatOut_identity] using h
    · have h2 : ((a ++ b).map scC)[k]? = ((a2 ++ b2).map scC)[k]? := by
        rw [List.getElem?_map, List.getElem?_map, h]
      simpa [flatOut_identity] using h2
  · rw [flatOut_normalize, flatOut_normalize, List.getElem?_map,
      List.getElem?_map, h]

/-- C8 witness: two splits of the same flattened list agree at `k = 1`
after each of the three transformations. -/
theorem C8_per_matrix_independence_witness :
    (([1, 2] ++ [3] : List ℕ)[1]? = (([1] ++ [2, 3] : List ℕ))[1]?) ∧
    (flatOut (Transformer.standardize Nat.succ [1, 2] [3]))[1]?
        = (flatOut (Transformer.standardize Nat.succ [1] [2, 3]))[1]? ∧
    (flatOut (Transformer.identity Nat.succ [1, 2] [3] false))[1]?
        = (flatOut (Transformer.identity Nat.succ [1] [2, 3] false))[1]? ∧
    (flatOut (Transformer.normalize Nat.succ Nat.succ [1, 2] [3] false))[1]?
        = (flatOut (Transformer.normalize Nat.succ Nat.succ [1] [2, 3] false))[1]? :=
  ⟨rfl, C8_per_matrix_independence Nat.succ Nat.succ Nat.succ false
    [1, 2] [3] [1] [2, 3] 1 rfl⟩

/-- C10: `standardize`, `identity`, `normalize` and `make_regressor`
split the flattened transformed list as `matrices[:-len(X_test)]` /
`matrices[-len(X_test):]`.  Hence with a non-empty `X_test` the output
lists keep the input lists' lengths, while with an empty `X_test` the
returned `X_train` is empty and `X_test` receives all transformed train
matrices. -/
theorem C10_split_semantics {α : Type} (sc scC nrm : α → α) (c : Bool)
    (a b : List α) (cfg : TransformerCfg) (svc : HrfService)
    (fs : String → Option (List ℚ)) (dtr dte : List DataFrame)
    (rtr rte : List ℕ) (res : RegressorResult) :
    (b ≠ [] →
      (Transformer.standardize sc a b).X_train.length = a.length ∧
      (Transformer.standardize sc a b).X_test.length = b.length ∧
      (Transformer.identity scC a b c).X_train.length = a.length ∧
      (Transformer.identity scC a b c).X_test.length = b.length ∧
      (Transformer.normalize scC nrm a b c).X_train.length = a.length ∧
      (Transformer.normalize scC nrm a b c).X_test.length = b.length) ∧
    ((Transformer.standardize sc a []).X_train = [] ∧
      (Transformer.standardize sc a []).X_test = a.map sc ∧
      (Transformer.identity scC a [] false).X_train = [] ∧
      (Transformer.identity scC a [] false).X_test = a ∧
      (Transformer.normalize scC nrm a [] false).X_train = [] ∧
      (Transformer.normalize scC nrm a [] false).X_test
        = a.map fun M => nrm M) ∧
    (Transformer.make_regressor cfg svc fs dtr dte rtr rte = .ok res →
      (dte ≠ [] → res.X_train.length = dtr.length ∧
        res.X_test.length = dte.length) ∧
      (dte = [] → res.X_train = [] ∧ res.X_test.length = dtr.length)) := by
  refine ⟨?_, ?_, ?_⟩
  · intro hb
    have hm0 : b.length ≠ 0 := fun h0 => hb (List.length_eq_zero.mp h0)
    have h1 := scale_split_lengths ((a ++ b).map sc) b.length a.length hm0
      (by simp)
    have h2 := scale_split_lengths
      (if c then (a ++ b).map scC else a ++ b) b.length a.length hm0
      (by cases c <;> simp)
    have h4 := scale_split_lengths
      ((a ++ b).map fun M => nrm (if c then scC M else M)) b.length a.length
      hm0 (by simp)
    exact ⟨h1.1, h1.2, h2.1, h2.2, h4.1, h4.2⟩
  · unfold Transformer.standardize Transformer.identity Transformer.normalize
    simp [pySliceTrain_zero, pySliceTest_zero]
  · intro hok
    unfold Transformer.make_regressor at hok
    simp only [bind, Except.bind] at hok
    cases hflat : mapExcept (regressorCall cfg svc fs (rtr ++ rte))
        (regressorPairs cfg (dtr ++ dte)) with
    | error e =>
        simp only [hflat] at hok
        cases hok
    | ok flat =>
        simp only [hflat] at hok
        by_cases hs : cfg.indexes.length = 0
        · simp [hs] at hok
        · rw [if_neg hs] at hok
          simp only [Except.ok.injEq] at hok
          subst hok
          have hflen : flat.length = (dtr.length + dte.length) * cfg.indexes.length := by
            rw [mapExcept_ok_length _ _ _ hflat, regressorPairs_length,
              List.length_append]
          have hmat : ((chunkGo flat.length cfg.indexes.length flat).map hstack).length
              = dtr.length + dte.length := by
            rw [List.length_map,
              chunkGo_length cfg.indexes.length hs flat.length flat
                (dtr.length + dte.length) hflen (le_refl _)]
          constructor
          · intro hdte
            have hm0 : dte.length ≠ 0 := fun h0 => hdte (List.length_eq_zero.mp h0)
            have := scale_split_lengths
              ((chunkGo flat.length cfg.indexes.length flat).map hstack)
              dte.length dtr.length hm0 (by rw [hmat])
            exact ⟨this.1, this.2⟩
          · rintro rfl
            refine ⟨rfl, ?_⟩
            show (pySliceTest ((chunkGo flat.length cfg.indexes.length flat).map hstack)
              (List.length ([] : List DataFrame))).length = dtr.length
            rw [List.length_nil, pySliceTest_zero, hmat]
            simp


/-- C10 witness: a concrete `make_regressor` run with one train and one
test matrix keeps both lengths, and `standardize` keeps lengths for a
non-empty `X_test` while returning an empty `X_train` for an empty
one. -/
theorem C10_split_semantics_witness :
    (([3] : List ℕ) ≠ [] ∧ ([[[some 2]]] : List DataFrame) ≠ [] ∧
      Transformer.make_regressor cfg0 svc0 fsRuns12 [[[some 1]]] [[[some 2]]]
          [0] [1]
        = .ok ⟨[[[0, 0, 0]]], [[[0, 0, 0]]], [0], [1]⟩) ∧
    (Transformer.standardize Nat.succ [1, 2] [3]).X_train.length = 2 ∧
    (Transformer.standardize Nat.succ [1, 2] [3]).X_test.length = 1 ∧
    (Transformer.standardize Nat.succ [1, 2] ([] : List ℕ)).X_train = [] ∧
    (⟨[[[0, 0, 0]]], [[[0, 0, 0]]], [0], [1]⟩ : RegressorResult).X_train.length = 1 ∧
    (⟨[[[0, 0, 0]]], [[[0, 0, 0]]], [0], [1]⟩ : RegressorResult).X_test.length = 1 := by
  have hok : Transformer.make_regressor cfg0 svc0 fsRuns12 [[[some 1]]]
      [[[some 2]]] [0] [1]
      = .ok ⟨[[[0, 0, 0]]], [[[0, 0, 0]]], [0], [1]⟩ := by
    with_unfolding_all rfl
  have h := C10_split_semantics Nat.succ Nat.succ Nat.succ false [1, 2] [3]
    cfg0 svc0 fsRuns12 [[[some 1]]] [[[some 2]]] [0] [1]
    ⟨[[[0, 0, 0]]], [[[0, 0, 0]]], [0], [1]⟩
  refine ⟨⟨List.cons_ne_nil _ _, List.cons_ne_nil _ _, hok⟩, ?_, ?_, ?_, ?_, ?_⟩
  · exact (h.1 (List.cons_ne_nil _ _)).1
  · exact (h.1 (List.cons_ne_nil _ _)).2.1
  · exact h.2.1.1
  · exact ((h.2.2 hok).1 (List.cons_ne_nil _ _)).1
  · exact ((h.2.2 hok).1 (List.cons_ne_nil _ _)).2

end IRNLM
